import Mathlib

/-!
Verification of the kanban board model of `KanbanBoard.tsx` (two variants:
a localStorage-backed one and a Supabase-backed one; their in-memory board
semantics are identical).

The board is three ordered task lists keyed by a fixed stage set.  The pure
state transformations `addTask`, `removeTask`, `moveTask` are translated
below directly from the source; effectful inputs of the code (the random
`uid()`, the clock `Date.now()`, `JSON.parse`, `Date.parse`) are passed in
as explicit parameters so the translations stay pure.
-/

namespace Kanban

open List

/-- `type Task = { id: string; title: string; createdAt: number }`. -/
structure Task where
  id : String
  title : String
  createdAt : Int
deriving DecidableEq, Repr

/-- `type ColumnId = "todo" | "in_progress" | "done"`. -/
inductive ColumnId where
  | todo
  | in_progress
  | done
deriving DecidableEq, Repr

/-- `type BoardState = Record<ColumnId, Task[]>`. -/
structure BoardState where
  todo : List Task
  in_progress : List Task
  done : List Task
deriving DecidableEq, Repr

/-- Reading `prev[col]`. -/
def stageList (b : BoardState) : ColumnId → List Task
  | .todo => b.todo
  | .in_progress => b.in_progress
  | .done => b.done

/-- The spread-with-computed-key update `{ ...prev, [col]: l }`. -/
def setStage (b : BoardState) (c : ColumnId) (l : List Task) : BoardState :=
  match c with
  | .todo => { b with todo := l }
  | .in_progress => { b with in_progress := l }
  | .done => { b with done := l }

/-- All tasks of the board, in stage order. -/
def allTasks (b : BoardState) : List Task :=
  b.todo ++ b.in_progress ++ b.done

/-- Total number of tasks summed over the three stages. -/
def totalTasks (b : BoardState) : Nat :=
  b.todo.length + b.in_progress.length + b.done.length

/-- The ids of all tasks on the board, in stage order. -/
def boardIds (b : BoardState) : List String :=
  (allTasks b).map Task.id

/-- The board invariant: no task id appears in two stages or twice in one
stage. -/
def InvariantIds (b : BoardState) : Prop :=
  (boardIds b).Nodup

instance (b : BoardState) : Decidable (InvariantIds b) :=
  inferInstanceAs (Decidable (boardIds b).Nodup)

/-- `l.splice(i, 1)` (the mutation's effect on `l`): drop the element at
index `i`. -/
def spliceRemove (l : List Task) (i : Nat) : List Task :=
  l.take i ++ l.drop (i + 1)

/-- `l.splice(i, 0, a)` (the mutation's effect on `l`): insert `a` before
index `i`; JS appends when `i` is at or beyond the end. -/
def spliceInsert (l : List Task) (i : Nat) (a : Task) : List Task :=
  l.take i ++ a :: l.drop i

/-- `typeof index === "number" ? Math.max(0, Math.min(index, len)) : len`:
the insertion position of `moveTask`, over a target list of length `len`.
`index` is `none` when the code's optional argument is omitted. -/
def insertAtClamped (index : Option Int) (len : Nat) : Nat :=
  match index with
  | some n => (max 0 (min n (len : Int))).toNat
  | none => len

/-- The character class stripped by JS `String.prototype.trim` (ECMA-262
*WhiteSpace* and *LineTerminator*): tab, LF, vertical tab, form feed, CR,
space, no-break space, the Ogham space mark, the Unicode space-separator
block U+2000–U+200A, the line and paragraph separators, the narrow
no-break space, the medium mathematical space, the ideographic space, and
the zero-width no-break space U+FEFF. -/
def isJsWhitespace (c : Char) : Bool :=
  c.toNat == 0x09 || c.toNat == 0x0A || c.toNat == 0x0B || c.toNat == 0x0C
    || c.toNat == 0x0D || c.toNat == 0x20 || c.toNat == 0xA0 || c.toNat == 0x1680
    || (0x2000 ≤ c.toNat && c.toNat ≤ 0x200A)
    || c.toNat == 0x2028 || c.toNat == 0x2029 || c.toNat == 0x202F
    || c.toNat == 0x205F || c.toNat == 0x3000 || c.toNat == 0xFEFF

/-- `title.trim()` of JS, translated to an executable function: strip
leading and trailing `isJsWhitespace` characters. -/
def trim (s : String) : String :=
  ⟨((s.data.dropWhile isJsWhitespace).reverse.dropWhile isJsWhitespace).reverse⟩

/-- `addTask(col, title)` of both variants: a silent no-op when the title
trims to empty (`!title.trim()` — the empty string is the only falsy
string), otherwise prepend a task built from the trimmed title, the fresh
`uid()` value `freshId` and the clock value `now`. -/
def addTask (col : ColumnId) (title : String) (freshId : String) (now : Int)
    (prev : BoardState) : BoardState :=
  if trim title = "" then prev
  else
    setStage prev col
      ({ id := freshId, title := trim title, createdAt := now } :: stageList prev col)

/-- `removeTask(col, id)` (local-state part, shared by both variants):
`prev[col].filter((t) => t.id !== id)`. -/
def removeTask (col : ColumnId) (id : String) (prev : BoardState) : BoardState :=
  setStage prev col ((stageList prev col).filter (fun t => t.id != id))

/-- `moveTask(from, to, id, index?)` of both variants.

```
const source = [...prev[from]];
const target = from === to ? source : [...prev[to]];
const i = source.findIndex((t) => t.id === id);
if (i === -1) return prev;
const [task] = source.splice(i, 1);
const insertAt = typeof index === "number"
  ? Math.max(0, Math.min(index, target.length)) : target.length;
target.splice(insertAt, 0, task);
return { ...prev, [from]: from === to ? target : source, [to]: target };
```

When `from === to`, `target` aliases `source`, so `target.length` at the
clamp is the length after the removal; that is what `target0` captures.
The inner `none` branch is unreachable (`findIndex` returns an in-range
index) and kept only to make the function total by pattern matching. -/
def moveTask (f t : ColumnId) (id : String) (index : Option Int)
    (prev : BoardState) : BoardState :=
  let source := stageList prev f
  match source.findIdx? (fun x => x.id == id) with
  | none => prev
  | some i =>
    match source[i]? with
    | none => prev
    | some task =>
      let source2 := spliceRemove source i
      let target0 := if f = t then source2 else stageList prev t
      let target := spliceInsert target0 (insertAtClamped index target0.length) task
      setStage (setStage prev f (if f = t then target else source2)) t target

/-! ### Basic lemmas about stage access and update -/

theorem stageList_setStage_same (b : BoardState) (c : ColumnId) (l : List Task) :
    stageList (setStage b c l) c = l := by
  cases c <;> rfl

theorem stageList_setStage_ne (b : BoardState) (c c' : ColumnId) (l : List Task)
    (h : c' ≠ c) : stageList (setStage b c l) c' = stageList b c' := by
  cases c <;> cases c' <;> first | rfl | exact absurd rfl h

theorem setStage_stageList_self (b : BoardState) (c : ColumnId) :
    setStage b c (stageList b c) = b := by
  cases c <;> rfl

theorem setStage_setStage_same (b : BoardState) (c : ColumnId) (l l' : List Task) :
    setStage (setStage b c l) c l' = setStage b c l' := by
  cases c <;> rfl

/-! ### Splice lemmas -/

theorem spliceInsert_perm (l : List Task) (i : Nat) (a : Task) :
    spliceInsert l i a ~ a :: l := by
  calc l.take i ++ a :: l.drop i
      ~ a :: (l.take i ++ l.drop i) := List.perm_middle
    _ = a :: l := by rw [List.take_append_drop]

theorem getElem?_some_lt_length {l : List Task} {i : Nat} {a : Task}
    (h : l[i]? = some a) : i < l.length := by
  by_contra hc
  rw [List.getElem?_eq_none (Nat.le_of_not_lt hc)] at h
  exact Option.noConfusion h

theorem spliceRemove_perm (l : List Task) (i : Nat) (a : Task)
    (h : l[i]? = some a) : l ~ a :: spliceRemove l i := by
  have hi : i < l.length := getElem?_some_lt_length h
  have ha : l[i] = a := by
    rw [List.getElem?_eq_getElem hi] at h
    exact Option.some.inj h
  calc l = l.take i ++ l.drop i := (List.take_append_drop i l).symm
    _ = l.take i ++ a :: l.drop (i + 1) := by
        rw [List.drop_eq_getElem_cons hi, ha]
    _ ~ a :: (l.take i ++ l.drop (i + 1)) := List.perm_middle
    _ = a :: spliceRemove l i := rfl

/-! ### `moveTask` preserves the tasks of the board up to permutation -/

theorem allTasks_perm_of_stage_perm (b : BoardState) (c : ColumnId)
    (l : List Task) (h : l ~ stageList b c) :
    allTasks (setStage b c l) ~ allTasks b := by
  cases c
  · exact (h.append_right _).append_right _
  · exact ((h.append_left _).append_right _ : _)
  · exact (List.Perm.append_left _ h)

/-! Unfolding equations for `moveTask`, one per control path of the code. -/

/-- `findIndex` misses: `if (i === -1) return prev`. -/
theorem moveTask_eq_not_found (f t : ColumnId) (id : String)
    (index : Option Int) (prev : BoardState)
    (hfi : (stageList prev f).findIdx? (fun x => x.id == id) = none) :
    moveTask f t id index prev = prev := by
  simp [moveTask, hfi]

/-- Unreachable guard branch: `findIndex` hit but the index were out of
range (it never is; kept for totality of the translation). -/
theorem moveTask_eq_oob (f t : ColumnId) (id : String)
    (index : Option Int) (prev : BoardState) (i : Nat)
    (hfi : (stageList prev f).findIdx? (fun x => x.id == id) = some i)
    (hgi : (stageList prev f)[i]? = none) :
    moveTask f t id index prev = prev := by
  simp [moveTask, hfi, hgi]

/-- Same-list reorder path: source and target are the one working copy, so
the clamp sees the length after the removal. -/
theorem moveTask_eq_found_same (t : ColumnId) (id : String)
    (index : Option Int) (prev : BoardState) (i : Nat) (task : Task)
    (hfi : (stageList prev t).findIdx? (fun x => x.id == id) = some i)
    (hgi : (stageList prev t)[i]? = some task) :
    moveTask t t id index prev =
      setStage prev t
        (spliceInsert (spliceRemove (stageList prev t) i)
          (insertAtClamped index (spliceRemove (stageList prev t) i).length) task) := by
  simp [moveTask, hfi, hgi, setStage_setStage_same]

/-- Cross-stage path: remove from the source copy, insert into the target
copy at the clamped position. -/
theorem moveTask_eq_found_ne (f t : ColumnId) (id : String)
    (index : Option Int) (prev : BoardState) (i : Nat) (task : Task)
    (hne : f ≠ t)
    (hfi : (stageList prev f).findIdx? (fun x => x.id == id) = some i)
    (hgi : (stageList prev f)[i]? = some task) :
    moveTask f t id index prev =
      setStage (setStage prev f (spliceRemove (stageList prev f) i)) t
        (spliceInsert (stageList prev t)
          (insertAtClamped index (stageList prev t).length) task) := by
  simp [moveTask, hfi, hgi, hne]

/-- The central frame lemma: a `moveTask` call permutes the board's tasks —
nothing is created, duplicated or destroyed, only repositioned. -/
theorem moveTask_allTasks_perm (f t : ColumnId) (id : String)
    (index : Option Int) (prev : BoardState) :
    allTasks (moveTask f t id index prev) ~ allTasks prev := by
  cases hfi : (stageList prev f).findIdx? (fun x => x.id == id) with
  | none => rw [moveTask_eq_not_found f t id index prev hfi]
  | some i =>
    cases hgi : (stageList prev f)[i]? with
    | none => rw [moveTask_eq_oob f t id index prev i hfi hgi]
    | some task =>
      have hsrc : stageList prev f ~ task :: spliceRemove (stageList prev f) i :=
        spliceRemove_perm _ _ _ hgi
      by_cases hft : f = t
      · subst hft
        rw [moveTask_eq_found_same f id index prev i task hfi hgi]
        refine allTasks_perm_of_stage_perm _ _ _ ?_
        exact (spliceInsert_perm _ _ _).trans hsrc.symm
      · rw [moveTask_eq_found_ne f t id index prev i task hft hfi hgi]
        have hins : spliceInsert (stageList prev t)
            (insertAtClamped index (stageList prev t).length) task
            ~ task :: stageList prev t := spliceInsert_perm _ _ _
        have hA := Multiset.coe_eq_coe.mpr hsrc
        have hT := Multiset.coe_eq_coe.mpr hins
        rw [← Multiset.coe_eq_coe]
        cases f <;> cases t <;>
          first
          | exact absurd rfl hft
          | (simp only [allTasks, setStage, stageList, ← Multiset.coe_add,
              ← Multiset.cons_coe, ← Multiset.singleton_add] at hA hT ⊢
             rw [hA, hT]
             abel)

/-! ### Splice vocabulary in terms of the standard list operations -/

theorem spliceRemove_eq_eraseIdx (l : List Task) (i : Nat) :
    spliceRemove l i = l.eraseIdx i :=
  (List.eraseIdx_eq_take_drop_succ l i).symm

theorem spliceInsert_eq_insertIdx (l : List Task) (i : Nat) (a : Task)
    (h : i ≤ l.length) : spliceInsert l i a = l.insertIdx i a := by
  induction l generalizing i with
  | nil =>
    have : i = 0 := Nat.le_zero.mp h
    subst this
    rfl
  | cons x xs ih =>
    cases i with
    | zero => rfl
    | succ n =>
      show x :: spliceInsert xs n a = x :: xs.insertIdx n a
      rw [ih n (Nat.le_of_succ_le_succ h)]

theorem spliceInsert_at_length (l : List Task) (a : Task) :
    spliceInsert l l.length a = l ++ [a] := by
  simp [spliceInsert, List.take_length, List.drop_length]

theorem insertAtClamped_le (index : Option Int) (len : Nat) :
    insertAtClamped index len ≤ len := by
  cases index with
  | none => exact Nat.le_refl _
  | some n =>
    simp only [insertAtClamped]
    rw [Int.toNat_le]
    exact max_le (Int.natCast_nonneg len) (min_le_right _ _)

theorem found_task_id {l : List Task} {id : String} {i : Nat} {task : Task}
    (hfi : l.findIdx? (fun x => x.id == id) = some i)
    (hgi : l[i]? = some task) : task.id = id := by
  obtain ⟨-, hidx⟩ := List.findIdx?_eq_some_iff_findIdx_eq.mp hfi
  have hp := List.findIdx_of_getElem?_eq_some (p := fun x => x.id == id) (y := task)
    (show l[l.findIdx (fun x => x.id == id)]? = some task by rw [hidx]; exact hgi)
  exact eq_of_beq hp

/-! ### Claim C1: the full specification of a successful `moveTask` -/

/-- Claim C1: when the requested id occurs in the source stage's list (first
occurrence at index `i`, holding `task`), `moveTask` behaves as follows.
The found task indeed carries the requested id; the insertion position is
the requested index clamped to `[0, length of the target list]` — it never
exceeds the target length, and an in-range requested index is used
unchanged.  For
distinct stages: the source list loses exactly the found occurrence, and
the target list gains the task at the clamped position — at the very end
when the index is omitted.  For equal stages: the resulting list is a
permutation of the old one, so it has the same element set and the moved
task is neither duplicated nor lost. -/
theorem moveTask_found_spec (prev : BoardState) (f t : ColumnId) (id : String)
    (index : Option Int) (i : Nat) (task : Task)
    (hfi : (stageList prev f).findIdx? (fun x => x.id == id) = some i)
    (hgi : (stageList prev f)[i]? = some task) :
    task.id = id
    ∧ insertAtClamped index (stageList prev t).length ≤ (stageList prev t).length
    ∧ (∀ n : Int, index = some n → 0 ≤ n → n ≤ ((stageList prev t).length : Int) →
        insertAtClamped index (stageList prev t).length = n.toNat)
    ∧ (f ≠ t →
        stageList (moveTask f t id index prev) f = (stageList prev f).eraseIdx i
        ∧ stageList (moveTask f t id index prev) t =
            (stageList prev t).insertIdx
              (insertAtClamped index (stageList prev t).length) task)
    ∧ (f ≠ t → index = none →
        stageList (moveTask f t id index prev) t = stageList prev t ++ [task])
    ∧ (f = t → stageList (moveTask f t id index prev) t ~ stageList prev t) := by
  refine ⟨found_task_id hfi hgi, insertAtClamped_le index _, ?_, fun hne => ?_,
    fun hne hidx => ?_, fun heq => ?_⟩
  · rintro n rfl h0 hlen
    simp only [insertAtClamped]
    rw [min_eq_left hlen, max_eq_right h0]
  · rw [moveTask_eq_found_ne f t id index prev i task hne hfi hgi]
    constructor
    · rw [stageList_setStage_ne _ _ _ _ hne, stageList_setStage_same,
        spliceRemove_eq_eraseIdx]
    · rw [stageList_setStage_same,
        spliceInsert_eq_insertIdx _ _ _ (insertAtClamped_le index _)]
  · rw [moveTask_eq_found_ne f t id index prev i task hne hfi hgi,
      stageList_setStage_same, hidx]
    exact spliceInsert_at_length _ _
  · subst heq
    rw [moveTask_eq_found_same f id index prev i task hfi hgi,
      stageList_setStage_same]
    exact (spliceInsert_perm _ _ _).trans (spliceRemove_perm _ _ _ hgi).symm

/-- Witness for C1: on `todo = [a, b]`, moving `a` to `in_progress` with no
index appends it there, and a same-stage move of `b` to the front of
`todo` permutes `todo`'s elements. -/
theorem moveTask_found_spec_witness :
    stageList (moveTask .todo .in_progress "a" none
        ⟨[⟨"a", "A", 0⟩, ⟨"b", "B", 1⟩], [], []⟩) .in_progress = [⟨"a", "A", 0⟩]
    ∧ stageList (moveTask .todo .todo "b" (some 0)
        ⟨[⟨"a", "A", 0⟩, ⟨"b", "B", 1⟩], [], []⟩) .todo
        ~ [⟨"a", "A", 0⟩, ⟨"b", "B", 1⟩] := by
  constructor
  · exact (moveTask_found_spec ⟨[⟨"a", "A", 0⟩, ⟨"b", "B", 1⟩], [], []⟩
      .todo .in_progress "a" none 0 ⟨"a", "A", 0⟩
      (by decide) (by decide)).2.2.2.2.1 (by decide) rfl
  · exact (moveTask_found_spec ⟨[⟨"a", "A", 0⟩, ⟨"b", "B", 1⟩], [], []⟩
      .todo .todo "b" (some 0) 1 ⟨"b", "B", 1⟩
      (by decide) (by decide)).2.2.2.2.2 rfl

/-! ### Claim C2: `moveTask` preserves the total task count -/

theorem totalTasks_eq_length_allTasks (b : BoardState) :
    totalTasks b = (allTasks b).length := by
  simp [totalTasks, allTasks, Nat.add_assoc]

/-- Claim C2: for every board state and every choice of source stage,
target stage, id and optional index, `moveTask` leaves the total number
of tasks summed over the three stages unchanged. -/
theorem moveTask_preserves_totalTasks (f t : ColumnId) (id : String)
    (index : Option Int) (prev : BoardState) :
    totalTasks (moveTask f t id index prev) = totalTasks prev := by
  rw [totalTasks_eq_length_allTasks, totalTasks_eq_length_allTasks]
  exact (moveTask_allTasks_perm f t id index prev).length_eq

/-! ### Claim C3: preservation of the unique-id invariant -/

theorem allTasks_setStage_sublist (b : BoardState) (col : ColumnId)
    {l : List Task} (h : l <+ stageList b col) :
    allTasks (setStage b col l) <+ allTasks b := by
  cases col
  · exact (h.append (List.Sublist.refl _)).append (List.Sublist.refl _)
  · exact ((List.Sublist.refl _).append h).append (List.Sublist.refl _)
  · exact (List.Sublist.refl _).append h

theorem allTasks_setStage_cons_perm (b : BoardState) (col : ColumnId) (nt : Task) :
    allTasks (setStage b col (nt :: stageList b col)) ~ nt :: allTasks b := by
  cases col
  · exact List.Perm.refl _
  · calc (b.todo ++ nt :: b.in_progress) ++ b.done
        = b.todo ++ nt :: (b.in_progress ++ b.done) := by
          rw [List.append_assoc]
          rfl
      _ ~ nt :: (b.todo ++ (b.in_progress ++ b.done)) := List.perm_middle
      _ = nt :: (b.todo ++ b.in_progress ++ b.done) := by rw [List.append_assoc]
  · exact List.perm_middle

theorem boardIds_addTask_perm (b : BoardState) (col : ColumnId)
    (title freshId : String) (now : Int) (h : trim title ≠ "") :
    boardIds (addTask col title freshId now b) ~ freshId :: boardIds b := by
  unfold addTask
  rw [if_neg h]
  exact (allTasks_setStage_cons_perm b col _).map Task.id

/-- Counterexample to C3 as stated: the fresh id handed to `addTask` comes
from `uid()` (`Math.random().toString(36).slice(2, 9)`), which can return
an id already on the board — the spec itself calls collisions "accepted as
negligible, not eliminated".  With a colliding fresh id, a single `addTask`
on an invariant-satisfying board yields a board with a duplicated id. -/
theorem addTask_can_break_invariant :
    InvariantIds ⟨[⟨"a", "x", 0⟩], [], []⟩
    ∧ ¬ InvariantIds (addTask .todo "y" "a" 1 ⟨[⟨"a", "x", 0⟩], [], []⟩) := by
  constructor <;> decide

/-- Claim C3, amended: on a board where no id appears twice, `removeTask`
and `moveTask` preserve that invariant unconditionally, and `addTask`
preserves it provided the freshly generated id does not already occur on
the board. -/
theorem board_ops_preserve_invariant (b : BoardState) (col f t : ColumnId)
    (title freshId id : String) (now : Int) (index : Option Int)
    (hinv : InvariantIds b) :
    (freshId ∉ boardIds b → InvariantIds (addTask col title freshId now b))
    ∧ InvariantIds (removeTask col id b)
    ∧ InvariantIds (moveTask f t id index b) := by
  refine ⟨fun hfresh => ?_, ?_, ?_⟩
  · by_cases hb : trim title = ""
    · simpa [addTask, hb] using hinv
    · exact ((boardIds_addTask_perm b col title freshId now hb).nodup_iff).mpr
        (List.nodup_cons.mpr ⟨hfresh, hinv⟩)
  · have hsub : allTasks (removeTask col id b) <+ allTasks b :=
      allTasks_setStage_sublist b col (List.filter_sublist _)
    exact List.Nodup.sublist (hsub.map Task.id) hinv
  · exact ((moveTask_allTasks_perm f t id index b).map Task.id).nodup_iff.mpr hinv

/-- Witness for the amended C3 on a two-task board: a fresh add, a remove
and a cross-stage move each keep the invariant. -/
theorem board_ops_preserve_invariant_witness :
    InvariantIds (addTask .todo "y" "c" 1 ⟨[⟨"a", "x", 0⟩], [⟨"b", "y", 0⟩], []⟩)
    ∧ InvariantIds (removeTask .todo "a" ⟨[⟨"a", "x", 0⟩], [⟨"b", "y", 0⟩], []⟩)
    ∧ InvariantIds (moveTask .todo .done "a" none ⟨[⟨"a", "x", 0⟩], [⟨"b", "y", 0⟩], []⟩) := by
  have h := board_ops_preserve_invariant ⟨[⟨"a", "x", 0⟩], [⟨"b", "y", 0⟩], []⟩
    .todo .todo .done "y" "c" "a" 1 none (by decide)
  exact ⟨h.1 (by decide), h.2.1, h.2.2⟩

/-! ### Claim C5: blank titles -/

/-- Claim C5: for every board state and stage, `addTask` with a title that
trims to the empty string returns the input state unchanged. -/
theorem addTask_blank_title_noop (prev : BoardState) (col : ColumnId)
    (title freshId : String) (now : Int) (h : trim title = "") :
    addTask col title freshId now prev = prev := by
  simp [addTask, h]

/-- Witness for C5 at a whitespace-only title on a nonempty board; the
title mixes a space with a no-break space and a vertical tab, two of the
characters JS trims beyond the ASCII-space family. -/
theorem addTask_blank_title_noop_witness :
    addTask .todo "  \u000B" "f1" 7 ⟨[⟨"a", "x", 0⟩], [], []⟩ =
      ⟨[⟨"a", "x", 0⟩], [], []⟩ :=
  addTask_blank_title_noop _ _ _ _ _ (by decide)

/-! ### Claim C6: a nonblank add prepends exactly one task -/

/-- Claim C6: when the title trims to a nonempty string, `addTask` prepends
exactly one new task — with the trimmed title, the fresh id and the clock
value — to the chosen stage's list, and leaves the other two stages'
lists unchanged. -/
theorem addTask_prepends (prev : BoardState) (col : ColumnId)
    (title freshId : String) (now : Int) (h : trim title ≠ "") :
    stageList (addTask col title freshId now prev) col =
      { id := freshId, title := trim title, createdAt := now } :: stageList prev col
    ∧ ∀ c : ColumnId, c ≠ col →
        stageList (addTask col title freshId now prev) c = stageList prev c := by
  refine ⟨?_, fun c hc => ?_⟩
  · simp [addTask, h, stageList_setStage_same]
  · simp [addTask, h, stageList_setStage_ne _ _ _ _ hc]

/-- Witness for C6: adding `" Buy milk "` (leading space, trailing
no-break space) to `todo` of the empty board yields exactly one `todo`
task titled `"Buy milk"` and empty other stages. -/
theorem addTask_prepends_witness :
    stageList (addTask .todo " Buy milk " "f1" 5 ⟨[], [], []⟩) .todo =
      [⟨"f1", "Buy milk", 5⟩]
    ∧ stageList (addTask .todo " Buy milk " "f1" 5 ⟨[], [], []⟩) .in_progress = []
    ∧ stageList (addTask .todo " Buy milk " "f1" 5 ⟨[], [], []⟩) .done = [] := by
  have h := addTask_prepends ⟨[], [], []⟩ .todo " Buy milk " "f1" 5 (by decide)
  exact ⟨by rw [h.1]; decide, h.2 .in_progress (by decide), h.2 .done (by decide)⟩

/-! ### Claim C4: moving an unknown id is the identity -/

/-- Claim C4: when no task in `fromStage`'s list has the requested id,
`moveTask` returns the input state unchanged, for every target stage and
every index. -/
theorem moveTask_unknown_id_noop (prev : BoardState) (f t : ColumnId)
    (id : String) (index : Option Int)
    (h : ∀ task ∈ stageList prev f, task.id ≠ id) :
    moveTask f t id index prev = prev := by
  have hnone : (stageList prev f).findIdx? (fun x => x.id == id) = none := by
    rw [List.findIdx?_eq_none_iff]
    intro x hx
    simpa using h x hx
  simp [moveTask, hnone]

/-- Witness for C4 at an id absent from the source stage. -/
theorem moveTask_unknown_id_noop_witness :
    moveTask .todo .done "zzz" (some 1) ⟨[⟨"a", "x", 0⟩], [⟨"b", "y", 1⟩], []⟩ =
      ⟨[⟨"a", "x", 0⟩], [⟨"b", "y", 1⟩], []⟩ :=
  moveTask_unknown_id_noop _ _ _ _ _ (by decide)

/-! ### Remote variant: the persisted delete issued by `removeTask` -/

/-- The delete statement issued by the remote variant's `removeTask`:
`supabase.from("tasks").delete().eq("id", id)`. -/
structure DeleteCmd where
  table : String
  keyColumn : String
  keyValue : String
deriving DecidableEq, Repr

/-- Remote `removeTask(col, id)`: the optimistic local filter on `col`'s
list together with the fire-and-forget persisted delete it issues. -/
def removeTaskRemote (col : ColumnId) (id : String) (prev : BoardState) :
    BoardState × DeleteCmd :=
  (removeTask col id prev, { table := "tasks", keyColumn := "id", keyValue := id })

/-- Claim C10: the persisted delete is keyed by id alone, regardless of the
stage argument: when no task with the id sits in the named stage's list,
the local state comes back unchanged, yet the delete of the row with that
id is still issued — the same command any other stage argument would
issue. -/
theorem removeTaskRemote_absent_spec (prev : BoardState) (col col' : ColumnId)
    (id : String) (h : ∀ task ∈ stageList prev col, task.id ≠ id) :
    (removeTaskRemote col id prev).1 = prev
    ∧ (removeTaskRemote col id prev).2 =
        { table := "tasks", keyColumn := "id", keyValue := id }
    ∧ (removeTaskRemote col id prev).2 = (removeTaskRemote col' id prev).2 := by
  refine ⟨?_, rfl, rfl⟩
  show removeTask col id prev = prev
  unfold removeTask
  rw [List.filter_eq_self.mpr, setStage_stageList_self]
  intro a ha
  simpa using h a ha

/-- Witness for C10: deleting id `"a"` through stage `done` (which does not
hold it) leaves the board alone but still issues the row delete. -/
theorem removeTaskRemote_absent_spec_witness :
    (removeTaskRemote .done "a" ⟨[⟨"a", "x", 0⟩], [], []⟩).1 =
      ⟨[⟨"a", "x", 0⟩], [], []⟩
    ∧ (removeTaskRemote .done "a" ⟨[⟨"a", "x", 0⟩], [], []⟩).2 =
        { table := "tasks", keyColumn := "id", keyValue := "a" } := by
  have h := removeTaskRemote_absent_spec ⟨[⟨"a", "x", 0⟩], [], []⟩ .done .todo "a"
    (by decide)
  exact ⟨h.1, h.2.1⟩

/-! ### Remote variant: `fetchTasks` grouping (Claim C9) -/

/-- One persisted row of the `tasks` table as fetched by
`select("id, title, status, created_at")`. -/
structure TaskRow where
  id : String
  title : String
  status : ColumnId
  created_at : String
deriving DecidableEq, Repr

/-- Conversion of one fetched row into an in-memory task:
`{ id: t.id, title: t.title, createdAt: Date.parse(t.created_at) }`; the
date parser is passed in as the parameter `parseDate`. -/
def rowToTask (parseDate : String → Int) (r : TaskRow) : Task :=
  { id := r.id, title := r.title, createdAt := parseDate r.created_at }

/-- The grouping loop of `fetchTasks`: start from the all-empty board and
run `next[t.status].push(...)` for each fetched row, in list order. -/
def boardOfRows (parseDate : String → Int) (rows : List TaskRow) : BoardState :=
  rows.foldl
    (fun acc r => setStage acc r.status (stageList acc r.status ++ [rowToTask parseDate r]))
    { todo := [], in_progress := [], done := [] }

theorem boardOfRows_go (parseDate : String → Int) (rows : List TaskRow)
    (acc : BoardState) (st : ColumnId) :
    stageList
      (rows.foldl
        (fun acc r => setStage acc r.status (stageList acc r.status ++ [rowToTask parseDate r]))
        acc) st
      = stageList acc st ++ (rows.filter (fun r => r.status == st)).map (rowToTask parseDate) := by
  induction rows generalizing acc with
  | nil => simp
  | cons r rows ih =>
    rw [List.foldl_cons, ih]
    by_cases hst : r.status = st
    · subst hst
      rw [stageList_setStage_same, List.filter_cons_of_pos (by simp),
        List.map_cons, List.append_assoc]
      rfl
    · rw [stageList_setStage_ne _ _ _ _ (fun hc => hst hc.symm),
        List.filter_cons_of_neg (by simpa using hst)]

/-- Claim C9: for every list of fetched rows, the board built by
`fetchTasks` groups the rows by their `status` field into the three
stages, and within each stage the converted tasks appear in exactly the
relative order the store returned them in. -/
theorem boardOfRows_groups_by_status (parseDate : String → Int)
    (rows : List TaskRow) (st : ColumnId) :
    stageList (boardOfRows parseDate rows) st
      = (rows.filter (fun r => r.status == st)).map (rowToTask parseDate) := by
  rw [boardOfRows, boardOfRows_go]
  cases st <;> rfl

/-! ### Local variant: snapshot load (Claim C8) -/

/-- The fixed seed state `initialData` of the local variant: two
pre-populated `todo` tasks, whose `uid()` and `Date.now()` values are
passed in as parameters. -/
def initialData (id1 id2 : String) (t1 t2 : Int) : BoardState :=
  { todo := [{ id := id1, title := "Спробувати нову дошку", createdAt := t1 },
             { id := id2, title := "Додати перше завдання", createdAt := t2 }],
    in_progress := [], done := [] }

/-- The load effect of `useLocalBoard`:

```
try {
  const raw = localStorage.getItem(STORAGE_KEY);
  if (raw) setData(JSON.parse(raw));
} catch {}
```

`raw` is the stored snapshot (`none` when the key is absent); `parse`
models `JSON.parse` (plus the implicit cast to `BoardState`), with
`Except.error` standing for a thrown parse exception — the `catch`
swallows it and the state stays at `initial`.  `if (raw)` also skips the
falsy empty string. -/
def loadBoard (parse : String → Except Unit BoardState) (raw : Option String)
    (initial : BoardState) : BoardState :=
  match raw with
  | none => initial
  | some s =>
    if s = "" then initial
    else
      match parse s with
      | .error _ => initial
      | .ok b => b

/-- Claim C8: in the local variant, whenever the stored snapshot is absent
or fails to parse, the board state after the initial load is exactly the
fixed seed: two pre-populated tasks in `todo`, empty `in_progress` and
`done`. -/
theorem loadBoard_fallback_seed (parse : String → Except Unit BoardState)
    (raw : Option String) (id1 id2 : String) (t1 t2 : Int)
    (h : raw = none ∨ ∃ s, raw = some s ∧ parse s = .error ()) :
    loadBoard parse raw (initialData id1 id2 t1 t2) = initialData id1 id2 t1 t2
    ∧ (loadBoard parse raw (initialData id1 id2 t1 t2)).todo.length = 2
    ∧ (loadBoard parse raw (initialData id1 id2 t1 t2)).in_progress = []
    ∧ (loadBoard parse raw (initialData id1 id2 t1 t2)).done = [] := by
  have heq : loadBoard parse raw (initialData id1 id2 t1 t2) =
      initialData id1 id2 t1 t2 := by
    rcases h with rfl | ⟨s, rfl, hp⟩
    · rfl
    · by_cases hs : s = ""
      · simp [loadBoard, hs]
      · simp [loadBoard, hs, hp]
  exact ⟨heq, by rw [heq]; rfl, by rw [heq]; rfl, by rw [heq]; rfl⟩

/-- Witness for C8: a corrupt stored snapshot (every parse fails) yields
the seed state. -/
theorem loadBoard_fallback_seed_witness :
    loadBoard (fun _ => .error ()) (some "garbage") (initialData "u1" "u2" 3 4)
      = initialData "u1" "u2" 3 4
    ∧ (loadBoard (fun _ => .error ()) (some "garbage") (initialData "u1" "u2" 3 4)).todo.length = 2 := by
  have h := loadBoard_fallback_seed (fun _ => .error ()) (some "garbage") "u1" "u2" 3 4
    (Or.inr ⟨"garbage", rfl, rfl⟩)
  exact ⟨h.1, h.2.1⟩

/-! ### Drag-and-drop: the drop handler (Claim C7) -/

/-- The string a column is rendered with as `col.id` — also the property
key under which that stage's list sits in `prev`. -/
def stageName : ColumnId → String
  | .todo => "todo"
  | .in_progress => "in_progress"
  | .done => "done"

/-- The property keys under which `prev[...]` finds an actual stage list.
`payload.from as ColumnId` is only a compile-time assertion, so at run
time an arbitrary coerced key reaches this lookup; any other key yields
`undefined`. -/
def decodeColumn (s : String) : Option ColumnId :=
  if s = "todo" then some ColumnId.todo
  else if s = "in_progress" then some ColumnId.in_progress
  else if s = "done" then some ColumnId.done
  else none

/-- A JS value held by a parsed payload field.  The handler and the
`moveTask` body observe such a value in exactly three ways: its
truthiness, strict equality `===` against a string, and the property-key
coercion `String(v)` performed by `prev[v]` and by the computed key
`[v]:`.  `str s` is the string primitive `s` (falsy exactly when empty);
`other k` is a truthy non-string value — array, object, number, … — whose
key coercion is `k`, and strict equality between a non-string and any
string is false.  Falsy non-string field values (`0`, `false`, `null`,
`NaN`) are observationally identical to the empty string here, because the
guard returns early on every falsy field; `str ""` stands for them all. -/
inductive JsField where
  | str (s : String)
  | other (key : String)
deriving DecidableEq, Repr

/-- JS truthiness of a field value. -/
def jsTruthy : JsField → Bool
  | .str s => s != ""
  | .other _ => true

/-- `String(v)`: the property-key coercion of a field value. -/
def toKey : JsField → String
  | .str s => s
  | .other k => k

/-- `v === s` against a string `s`: true only for the same string
primitive. -/
def strictEqStr (v : JsField) (s : String) : Bool :=
  match v with
  | .str s2 => s2 == s
  | .other _ => false

/-- Outcome of handling one drop event.  `crash` marks the path on which
the updater passed to `setBoard` throws: when the coerced key of
`payload.from` names no stage list, `prev[from]` is `undefined`, so
`[...prev[from]]` raises a `TypeError`.  The `try/catch` inside
`onDropColumn` does not cover that throw — the updater runs when React
processes the queued state update, outside the handler's `try` block (and
React's eager evaluation of updaters deliberately suppresses such an
error and re-throws it in the render phase). -/
inductive DropResult where
  | ok (b : BoardState)
  | crash
deriving DecidableEq, Repr

/-- `moveTask(payload.from as ColumnId, to, payload.taskId as string)` as
it executes at run time on raw payload fields (the casts are erased):

* `const source = [...prev[from]]` coerces `from` to a property key; when
  the key names no stage list, the spread of `undefined` throws (`crash`);
* `const target = from === to ? source : [...prev[to]]` uses strict
  equality, which only the string primitive naming the drop column passes;
  a truthy non-string `from` whose key names the drop column itself
  therefore gets a *separate copy* of that list, not an alias of `source`;
* `findIndex((t) => t.id === id)` compares each id string with the raw
  `taskId` value;
* in `{ ...prev, [from]: …, [to]: target }` both computed keys coerce, and
  the `[to]` write comes second, so on the separate-copy path over one and
  the same stage the `[to]: target` write wins. -/
def moveTaskJs (fromV taskIdV : JsField) (tgt : ColumnId)
    (prev : BoardState) : DropResult :=
  match decodeColumn (toKey fromV) with
  | none => .crash
  | some f =>
    let source := stageList prev f
    let sameRef := strictEqStr fromV (stageName tgt)
    match source.findIdx? (fun x => strictEqStr taskIdV x.id) with
    | none => .ok prev
    | some i =>
      match source[i]? with
      | none => .ok prev
      | some task =>
        let source2 := spliceRemove source i
        let target0 := if sameRef then source2 else stageList prev tgt
        let target := spliceInsert target0 (insertAtClamped none target0.length) task
        .ok (setStage (setStage prev f (if sameRef then target else source2)) tgt target)

/-- A successfully `JSON.parse`d drop payload, restricted to the shape the
handler inspects: the `taskId` and `from` fields, each absent or holding
a `JsField` value. -/
structure DragPayload where
  taskId : Option JsField
  fromField : Option JsField
deriving DecidableEq, Repr

/-- `onDropColumn(e, to)` of both variants, with the `JSON.parse` outcome
passed in: `none` models a thrown parse error (caught; drop ignored).
The guard `if (!payload?.taskId || !payload?.from) return;` returns early
on every falsy field value; an absent field reads as `undefined`,
represented by the falsy `str ""`. -/
def onDropColumn (payload : Option DragPayload) (tgt : ColumnId)
    (prev : BoardState) : DropResult :=
  match payload with
  | none => .ok prev
  | some p =>
    let tid := p.taskId.getD (.str "")
    let frm := p.fromField.getD (.str "")
    if !jsTruthy tid || !jsTruthy frm then .ok prev
    else moveTaskJs frm tid tgt prev

theorem jsTruthy_other (k : String) : jsTruthy (.other k) = true := rfl

theorem strictEqStr_other (k s : String) : strictEqStr (.other k) s = false := rfl

theorem decodeColumn_eq_stageName {s : String} {f : ColumnId}
    (h : decodeColumn s = some f) : s = stageName f := by
  unfold decodeColumn at h
  split_ifs at h with h1 h2 h3
  · injection h with h4
    subst h4
    exact h1
  · injection h with h4
    subst h4
    exact h2
  · injection h with h4
    subst h4
    exact h3

/-- On string payload fields — the only payloads the app's own
`onDragStart` produces — the runtime body coincides with the verified
`moveTask`. -/
theorem moveTaskJs_str_eq_moveTask (s id : String) (tgt : ColumnId)
    (prev : BoardState) (f : ColumnId) (hdec : decodeColumn s = some f) :
    moveTaskJs (.str s) (.str id) tgt prev = .ok (moveTask f tgt id none prev) := by
  have hs : s = stageName f := decodeColumn_eq_stageName hdec
  have hpred : (fun x : Task => strictEqStr (JsField.str id) x.id) =
      (fun x : Task => x.id == id) := by
    funext x
    simp only [strictEqStr]
    exact Bool.beq_comm
  cases hfi : (stageList prev f).findIdx? (fun x => x.id == id) with
  | none =>
    rw [moveTask_eq_not_found f tgt id none prev hfi]
    simp [moveTaskJs, toKey, hdec, hpred, hfi]
  | some i =>
    cases hgi : (stageList prev f)[i]? with
    | none =>
      rw [moveTask_eq_oob f tgt id none prev i hfi hgi]
      simp [moveTaskJs, toKey, hdec, hpred, hfi, hgi]
    | some task =>
      by_cases hft : f = tgt
      · subst hft
        rw [moveTask_eq_found_same f id none prev i task hfi hgi]
        have hsame : strictEqStr (JsField.str s) (stageName f) = true := by
          rw [hs]
          simp [strictEqStr]
        simp [moveTaskJs, toKey, hdec, hpred, hfi, hgi, hsame, setStage_setStage_same]
      · rw [moveTask_eq_found_ne f tgt id none prev i task hft hfi hgi]
        have hsne : stageName f ≠ stageName tgt := by
          cases f <;> cases tgt <;> first | (exact absurd rfl hft) | decide
        have hsame : strictEqStr (JsField.str s) (stageName tgt) = false := by
          rw [hs]
          simpa [strictEqStr] using hsne
        simp [moveTaskJs, toKey, hdec, hpred, hfi, hgi, hsame]

/-- Counterexample to C7 as stated: handling a drop can crash — a string
`from` naming no stage makes `[...prev[from]]` throw in the queued state
update — and can corrupt the board — a truthy non-string `from` whose key
coercion names the drop column itself fails the `from === to` strict
equality, so the found task is appended to a stale separate copy of the
list it was never removed from, duplicating it and breaking the unique-id
invariant. -/
theorem onDropColumn_crash_or_corrupt_counterexample :
    onDropColumn (some { taskId := some (.str "x"), fromField := some (.str "archived") })
      .todo ⟨[], [], []⟩ = .crash
    ∧ onDropColumn (some { taskId := some (.str "a"), fromField := some (.other "todo") })
        .todo ⟨[⟨"a", "x", 0⟩], [], []⟩ =
        .ok ⟨[⟨"a", "x", 0⟩, ⟨"a", "x", 0⟩], [], []⟩
    ∧ ¬ InvariantIds ⟨[⟨"a", "x", 0⟩, ⟨"a", "x", 0⟩], [], []⟩ := by
  exact ⟨by decide, by decide, by decide⟩

/-- Claim C7, amended: (1) a failed parse leaves the board unchanged and
nothing crashes; (2) likewise for any falsy `taskId` or `from` field;
(3) a payload whose two fields are truthy strings with `from` naming a
stage performs `move(fromStage, toStage, taskId)` with no explicit index,
without crashing; (4) a truthy `from` whose property-key coercion names
no stage crashes the queued state update; (5) a truthy non-string `from`
whose key coercion names the drop column itself skips the `from === to`
aliasing check, so a found task is appended to a stale copy of its own
list — duplicated rather than moved, silently corrupting the board. -/
theorem onDropColumn_amended (payload : Option DragPayload) (tgt : ColumnId)
    (prev : BoardState) :
    (payload = none → onDropColumn payload tgt prev = .ok prev)
    ∧ (∀ p, payload = some p →
        jsTruthy (p.taskId.getD (.str "")) = false
          ∨ jsTruthy (p.fromField.getD (.str "")) = false →
        onDropColumn payload tgt prev = .ok prev)
    ∧ (∀ p id s f, payload = some p → p.taskId = some (.str id) → id ≠ "" →
        p.fromField = some (.str s) → s ≠ "" → decodeColumn s = some f →
        onDropColumn payload tgt prev = .ok (moveTask f tgt id none prev))
    ∧ (∀ p v w, payload = some p → p.taskId = some v → jsTruthy v = true →
        p.fromField = some w → jsTruthy w = true →
        decodeColumn (toKey w) = none →
        onDropColumn payload tgt prev = .crash)
    ∧ (∀ p v k i task, payload = some p → p.taskId = some v →
        jsTruthy v = true → p.fromField = some (.other k) →
        decodeColumn k = some tgt →
        (stageList prev tgt).findIdx? (fun x => strictEqStr v x.id) = some i →
        (stageList prev tgt)[i]? = some task →
        onDropColumn payload tgt prev =
          .ok (setStage prev tgt (stageList prev tgt ++ [task]))) := by
  refine ⟨?_, ?_, ?_, ?_, ?_⟩
  · rintro rfl
    rfl
  · rintro p rfl h
    rcases h with h | h <;> simp [onDropColumn, h]
  · rintro p id s f rfl htid hid hfrm hsne hdec
    have hbridge := moveTaskJs_str_eq_moveTask s id tgt prev f hdec
    simp only [onDropColumn, htid, hfrm, Option.getD_some]
    rw [if_neg (by simp [jsTruthy, hid, hsne])]
    exact hbridge
  · rintro p v w rfl htid hvt hfrm hwt hdec
    simp only [onDropColumn, htid, hfrm, Option.getD_some]
    rw [if_neg (by simp [hvt, hwt])]
    simp [moveTaskJs, hdec]
  · rintro p v k i task rfl htid hvt hfrm hdec hfi hgi
    simp only [onDropColumn, htid, hfrm, Option.getD_some]
    rw [if_neg (by simp [hvt, jsTruthy_other])]
    simp [moveTaskJs, toKey, hdec, strictEqStr_other, hfi, hgi,
      setStage_setStage_same, insertAtClamped, spliceInsert_at_length]

/-- Witness for the amended C7: a failed parse, a missing field, a
well-formed string payload, and a non-string `from` coercing to the drop
column each produce the described outcome at concrete inputs. -/
theorem onDropColumn_amended_witness :
    onDropColumn none .todo ⟨[], [], []⟩ = .ok ⟨[], [], []⟩
    ∧ onDropColumn (some { taskId := some (.str "x"), fromField := none }) .done
        ⟨[], [], []⟩ = .ok ⟨[], [], []⟩
    ∧ onDropColumn (some { taskId := some (.str "a"), fromField := some (.str "todo") })
        .done ⟨[⟨"a", "x", 0⟩], [], []⟩ =
        .ok (moveTask .todo .done "a" none ⟨[⟨"a", "x", 0⟩], [], []⟩)
    ∧ onDropColumn (some { taskId := some (.str "a"), fromField := some (.other "todo") })
        .todo ⟨[⟨"a", "x", 0⟩], [], []⟩ =
        .ok (setStage ⟨[⟨"a", "x", 0⟩], [], []⟩ .todo
          (stageList ⟨[⟨"a", "x", 0⟩], [], []⟩ .todo ++ [⟨"a", "x", 0⟩])) := by
  refine ⟨(onDropColumn_amended none .todo ⟨[], [], []⟩).1 rfl,
    (onDropColumn_amended _ .done ⟨[], [], []⟩).2.1 _ rfl (Or.inr (by decide)),
    (onDropColumn_amended _ .done ⟨[⟨"a", "x", 0⟩], [], []⟩).2.2.1 _ "a" "todo" .todo
      rfl rfl (by decide) rfl (by decide) (by decide),
    (onDropColumn_amended _ .todo ⟨[⟨"a", "x", 0⟩], [], []⟩).2.2.2.2 _ (.str "a")
      "todo" 0 ⟨"a", "x", 0⟩ rfl rfl (by decide) rfl (by decide) (by decide) (by decide)⟩

end Kanban
